import Mathlib

/-!
# The gitness command line entry point (`cli/cli.go`)

`Command` builds a kingpin application, lets ten collaborators register their
subcommands on it, installs a version flag and parses `os.Args[1:]`.

The development has three layers:

* the Go primitives `Command` relies on (the slice expression `os.Args[1:]`,
  `context.Background`),
* the command engine (tree, parser, dispatcher) behind the kingpin calls,
* `Command` itself, as a state transformer over a process state that records
  every call in a trace.
-/

set_option autoImplicit false

namespace Gitness

/-! ## Go primitives -/

/-- Go slice expression `s[low:]`: the elements from index `low` on when
`low ≤ len(s)`, and a run-time panic (`none`) otherwise. -/
def sliceFrom (s : List String) (low : Nat) : Option (List String) :=
  if low ≤ s.length then some (s.drop low) else none

namespace context

/-- Errors a Go context can report through `Err()`. -/
inductive CtxError
  | Canceled
  | DeadlineExceeded
  deriving DecidableEq, Repr

/-- Contexts of Go's `context` package: the empty root context returned by
`Background`, and the derived contexts made by `WithCancel` and `WithDeadline`.
A derived context is identified by the number of its cancel function. -/
inductive Context
  | emptyCtx
  | cancelCtx (parent : Context) (id : Nat)
  | timerCtx (parent : Context) (id : Nat) (deadline : Nat)
  deriving DecidableEq, Repr

/-- Go `context.Background()`: "a non-nil, empty Context. It is never canceled,
has no values, and has no deadline". -/
def Background : Context := Context.emptyCtx

/-- Go `context.WithCancel`. -/
def WithCancel (parent : Context) (id : Nat) : Context := Context.cancelCtx parent id

/-- Go `context.WithDeadline`. -/
def WithDeadline (parent : Context) (id : Nat) (deadline : Nat) : Context :=
  Context.timerCtx parent id deadline

/-- Go `Context.Deadline()`: the earliest deadline on the chain to the root, if any. -/
def Context.Deadline : Context → Option Nat
  | .emptyCtx => none
  | .cancelCtx p _ => p.Deadline
  | .timerCtx p _ d =>
    match p.Deadline with
    | some d0 => some (min d d0)
    | none => some d

/-- Go `Context.Done()` is a nil channel exactly when the context can never be
cancelled; `hasDone` says whether the channel is non-nil, that is whether the
context carries a cancellation signal. -/
def Context.hasDone : Context → Bool
  | .emptyCtx => false
  | .cancelCtx _ _ => true
  | .timerCtx _ _ _ => true

/-- Go `Context.Err()` in a world where the cancel functions `cancelled` have
been called and the clock reads `now`. -/
def Context.Err (cancelled : List Nat) (now : Nat) : Context → Option CtxError
  | .emptyCtx => none
  | .cancelCtx p id =>
    match p.Err cancelled now with
    | some e => some e
    | none => if id ∈ cancelled then some .Canceled else none
  | .timerCtx p id d =>
    match p.Err cancelled now with
    | some e => some e
    | none =>
      if id ∈ cancelled then some .Canceled
      else if d ≤ now then some .DeadlineExceeded
      else none

end context

/-! ## The command engine

`cli.go` only calls into the engine (`kingpin.New`, `app.Parse`,
`kingpin.Version`, `kingpin.MustParse`); the engine itself is not part of the
sources at hand and is modelled after its specification. -/

namespace kingpin

/-- Modelled from the spec: the `kind` of a FlagSpec (§3), which fixes the
textual encodings a flag accepts. -/
inductive FlagKind
  | bool
  | string
  | int
  | duration
  deriving DecidableEq, Repr

/-- Modelled from the spec: a bound flag value (§3, `boundFlags`); durations
are kept in nanoseconds. -/
inductive Value
  | bool (b : Bool)
  | str (s : String)
  | int (i : Int)
  | duration (ns : Nat)
  deriving DecidableEq, Repr

/-- Modelled from the spec: FlagSpec (§3). A `terminal` flag short-circuits
parsing (version, help). -/
structure FlagSpec where
  name : String
  aliases : List String
  kind : FlagKind
  default : Option Value
  required : Bool
  terminal : Bool
  deriving DecidableEq, Repr

/-- Modelled from the spec: a Handler (§3) is a capability supplied by a
collaborator; the engine never looks inside it, so a handler is named by a
number. -/
abbrev HandlerId := Nat

/-- Modelled from the spec: CommandNode (§3): a named unit owning flags,
children (keys unique, kept in insertion order) and an optional handler. -/
inductive CommandNode
  | mk (name : String) (description : String) (flags : List FlagSpec)
      (children : List CommandNode) (handler : Option HandlerId)

/-- Name of a command node. -/
def CommandNode.name : CommandNode → String
  | .mk n _ _ _ _ => n

/-- Description of a command node. -/
def CommandNode.description : CommandNode → String
  | .mk _ d _ _ _ => d

/-- Flags declared by a command node. -/
def CommandNode.flags : CommandNode → List FlagSpec
  | .mk _ _ f _ _ => f

/-- Child nodes of a command node. -/
def CommandNode.children : CommandNode → List CommandNode
  | .mk _ _ _ c _ => c

/-- Handler bound to a command node, if any. -/
def CommandNode.handler : CommandNode → Option HandlerId
  | .mk _ _ _ _ h => h

/-- Modelled from the spec: the CommandTree (§3), the root of the grammar: the
application's name and description, the flags reserved at the root, the
externally supplied version string once a version flag is installed, and the
top-level command nodes. -/
structure Application where
  name : String
  description : String
  flags : List FlagSpec
  version : Option String
  children : List CommandNode

/-- Modelled from the spec: ParseError taxonomy of §7 (parse-time errors). -/
inductive ParseError
  | UnknownCommand (path : List String) (available : List String)
  | NoHandler (path : List String) (available : List String)
  | UnknownFlag (flag : String)
  | MissingRequiredFlag (flag : String)
  | FlagTypeConversionError (flag : String)
  deriving DecidableEq, Repr

/-- Modelled from the spec: ResolvedInvocation (§3). The path is given by the
names of its nodes, root to leaf, together with the leaf's handler. -/
structure ResolvedInvocation where
  path : List String
  handler : HandlerId
  boundFlags : List (String × Value)
  positionals : List String
  deriving DecidableEq, Repr

/-- Modelled from the spec: the outcome of `parse` (§4.3), with the
short-circuit of a terminal flag as a distinguished outcome (§9). -/
inductive ParseOutcome
  | resolved (inv : ResolvedInvocation)
  | shortCircuit (flag : String)
  | error (e : ParseError)
  deriving DecidableEq, Repr

/-- Modelled from the spec: registration-time error of §7. -/
inductive RegistrationError
  | DuplicateCommand (name : String)
  deriving DecidableEq, Repr

/-- Modelled from the spec: lookup of a child by its exact name (§4.3 step 1:
case-sensitive, no abbreviation). -/
def findChild (children : List CommandNode) (name : String) : Option CommandNode :=
  children.find? (fun c => c.name == name)

/-- Modelled from the spec: the names of the nodes of a list, in order (the
listing carried by `UnknownCommand` and `NoHandler`). -/
def childNames (children : List CommandNode) : List String :=
  children.map CommandNode.name

/-- Modelled from the spec: insertion into the `children` mapping (§3, keys
unique): a node of the same name is replaced in place, a new name is added at
the end (insertion order is help order). -/
def insertChild : List CommandNode → CommandNode → List CommandNode
  | [], n => [n]
  | c :: cs, n => if c.name == n.name then n :: cs else c :: insertChild cs n

/-- Modelled from the spec: the tree "constructed empty at process start": an
application with a name and a description, no flags and no commands. -/
def Application.empty (name description : String) : Application :=
  { name := name, description := description, flags := [], version := none, children := [] }

/-- Modelled from the spec: `register` of §4.2 for a subtree placed at the root
of the tree: it fails with `DuplicateCommand` when the name already exists
there with a handler bound, and inserts the node otherwise. -/
def Application.register (app : Application) (node : CommandNode) :
    Except RegistrationError Application :=
  match findChild app.children node.name with
  | some old =>
    if old.handler.isSome then .error (.DuplicateCommand node.name)
    else .ok { app with children := insertChild app.children node }
  | none => .ok { app with children := insertChild app.children node }

/-- Modelled from the spec: the reserved version flag (§6): a boolean, terminal
flag named `version`. -/
def versionFlag : FlagSpec :=
  { name := "version", aliases := [], kind := .bool, default := none,
    required := false, terminal := true }

/-- Modelled from the spec: `app.Version(v)`: installs the reserved terminal
version flag at the root of `app` and stores the string it prints. -/
def Application.Version (app : Application) (v : String) : Application :=
  { app with version := some v, flags := app.flags ++ [versionFlag] }

/-! ### The argument parser (§4.3) -/

/-- Modelled from the spec: a flag token is a token with the leading marker `-`. -/
def isFlagToken (t : String) : Bool :=
  match t.data with
  | '-' :: _ => true
  | _ => false

/-- Modelled from the spec: the name a flag token refers to, that is the token
without its leading markers. -/
def flagName (t : String) : String :=
  String.mk (t.data.dropWhile (fun c => c == '-'))

/-- Modelled from the spec: the FlagSpec a name refers to among the visible
flags (deepest node first, so that deeper declarations shadow shallower ones,
§4.3 step 2): by name first, by alias otherwise. -/
def lookupFlag (visible : List FlagSpec) (n : String) : Option FlagSpec :=
  match visible.find? (fun f => f.name == n) with
  | some f => some f
  | none => visible.find? (fun f => f.aliases.contains n)

/-- Modelled from the spec: textual encoding of a number, a non-empty string of
decimal digits. -/
def parseNat (cs : List Char) : Option Nat :=
  if cs.isEmpty then none
  else cs.foldl
    (fun acc c => acc.bind (fun n => if c.isDigit then some (10 * n + (c.toNat - 48)) else none))
    (some 0)

/-- Modelled from the spec: textual encoding of an `int` flag, a decimal number
with an optional sign. -/
def parseInt (cs : List Char) : Option Int :=
  match cs with
  | '-' :: r => (parseNat r).map (fun n => - (n : Int))
  | '+' :: r => (parseNat r).map (fun n => (n : Int))
  | _ => (parseNat cs).map (fun n => (n : Int))

/-- Modelled from the spec: the unit suffixes of a duration (§4.1), in
nanoseconds. -/
def unitNanos (u : List Char) : Option Nat :=
  if u = ['n', 's'] then some 1
  else if u = ['u', 's'] then some 1000
  else if u = ['m', 's'] then some 1000000
  else if u = ['s'] then some 1000000000
  else if u = ['m'] then some 60000000000
  else if u = ['h'] then some 3600000000000
  else none

/-- Modelled from the spec: textual encoding of a `duration` flag, "a
numeric+unit suffix grammar" (§4.1). -/
def parseDuration (cs : List Char) : Option Nat :=
  match parseNat (cs.takeWhile Char.isDigit), unitNanos (cs.dropWhile Char.isDigit) with
  | some n, some u => some (n * u)
  | _, _ => none

/-- Modelled from the spec: conversion of a supplied text to a flag's kind
(§4.1); `none` is a conversion failure. Boolean flags take no value. -/
def convert (kind : FlagKind) (text : String) : Option Value :=
  match kind with
  | .bool => some (.bool true)
  | .string => some (.str text)
  | .int => (parseInt text.data).map Value.int
  | .duration => (parseDuration text.data).map Value.duration

/-- Modelled from the spec: one value supplied on the command line for a flag,
and whether the flag was addressed by an alias. -/
structure Binding where
  flag : String
  viaAlias : Bool
  value : Value
  deriving DecidableEq, Repr

/-- Modelled from the spec: steps 2 to 4 of §4.3: go through the tokens left
after the command path, binding flag tokens to the visible FlagSpecs (a flag
token naming no FlagSpec is `UnknownFlag`; a value that is absent or does not
convert is `FlagTypeConversionError`) and collecting every other token as a
positional, in encounter order. -/
def bindTokens (visible : List FlagSpec) :
    List String → Except ParseError (List Binding × List String)
  | [] => .ok ([], [])
  | t :: rest =>
    if isFlagToken t then
      match lookupFlag visible (flagName t) with
      | none => .error (.UnknownFlag (flagName t))
      | some f =>
        if f.kind = .bool then
          match bindTokens visible rest with
          | .error e => .error e
          | .ok (bs, ps) => .ok (⟨f.name, f.name != flagName t, .bool true⟩ :: bs, ps)
        else
          match rest with
          | [] => .error (.FlagTypeConversionError f.name)
          | v :: rest2 =>
            match convert f.kind v with
            | none => .error (.FlagTypeConversionError f.name)
            | some val =>
              match bindTokens visible rest2 with
              | .error e => .error e
              | .ok (bs, ps) => .ok (⟨f.name, f.name != flagName t, val⟩ :: bs, ps)
    else
      match bindTokens visible rest with
      | .error e => .error e
      | .ok (bs, ps) => .ok (bs, t :: ps)

/-- Modelled from the spec: the visible flags with shadowed declarations
removed: of several FlagSpecs of one name the deepest (first) one is kept. -/
def shadow : List FlagSpec → List FlagSpec
  | [] => []
  | f :: fs => f :: (shadow fs).filter (fun g => g.name != f.name)

/-- Modelled from the spec: binding order "explicit value > alias > default". -/
def finalValue (bs : List Binding) (f : FlagSpec) : Option Value :=
  match bs.find? (fun b => b.flag == f.name && !b.viaAlias) with
  | some b => some b.value
  | none =>
    match bs.find? (fun b => b.flag == f.name) with
    | some b => some b.value
    | none => f.default

/-- Modelled from the spec: the bound flags of an invocation; a required flag
with neither a supplied value nor a default is `MissingRequiredFlag` (§4.1). -/
def bindFlags (bs : List Binding) : List FlagSpec → Except ParseError (List (String × Value))
  | [] => .ok []
  | f :: fs =>
    match finalValue bs f with
    | some v =>
      match bindFlags bs fs with
      | .error e => .error e
      | .ok bound => .ok ((f.name, v) :: bound)
    | none =>
      if f.required then .error (.MissingRequiredFlag f.name)
      else bindFlags bs fs

/-- Modelled from the spec: position of the parser in the tree: the names
matched so far, the flags visible there (deepest node first), and the children
and handler of the node reached. -/
structure Cursor where
  path : List String
  flags : List FlagSpec
  children : List CommandNode
  handler : Option HandlerId

/-- Modelled from the spec: the parser starts at the root of the tree. -/
def Cursor.root (app : Application) : Cursor :=
  { path := [], flags := app.flags, children := app.children, handler := none }

/-- Modelled from the spec: the step into a child node. -/
def Cursor.descend (cur : Cursor) (c : CommandNode) : Cursor :=
  { path := cur.path ++ [c.name], flags := c.flags ++ cur.flags,
    children := c.children, handler := c.handler }

/-- Modelled from the spec: step 1 of §4.3: consume leading tokens as long as
each matches a child name exactly; stop at the first token that is a flag
token or no child name, or when no tokens remain. -/
def walk : Cursor → List String → Cursor × List String
  | cur, [] => (cur, [])
  | cur, t :: rest =>
    if isFlagToken t then (cur, t :: rest)
    else
      match findChild cur.children t with
      | some c => walk (cur.descend c) rest
      | none => (cur, t :: rest)

/-- Modelled from the spec: the first terminal flag among the tokens, if any
(§3: the presence of a terminal flag short-circuits parsing). -/
def terminalFlag (visible : List FlagSpec) (tokens : List String) : Option FlagSpec :=
  tokens.findSome? (fun t =>
    if isFlagToken t then (lookupFlag visible (flagName t)).filter (fun f => f.terminal)
    else none)

/-- Modelled from the spec: whether the tokens start with a token that is not a
flag token. -/
def startsWithWord : List String → Bool
  | [] => false
  | t :: _ => !isFlagToken t

/-- Modelled from the spec: what `parse` does once the walk has stopped at
`cur` with `rest` left over: a terminal flag short-circuits; nothing matched at
the root is `UnknownCommand` (step 6), as is a word that is no child of a pure
branch; then the flags are bound (steps 2 to 4) and a node without handler is
`NoHandler` (step 5). -/
def finish (cur : Cursor) (rest : List String) : ParseOutcome :=
  match terminalFlag cur.flags rest with
  | some f => .shortCircuit f.name
  | none =>
    if cur.path.isEmpty then .error (.UnknownCommand [] (childNames cur.children))
    else if cur.handler.isNone && startsWithWord rest then
      .error (.UnknownCommand cur.path (childNames cur.children))
    else
      match bindTokens cur.flags rest with
      | .error e => .error e
      | .ok (bs, ps) =>
        match bindFlags bs (shadow cur.flags) with
        | .error e => .error e
        | .ok bound =>
          match cur.handler with
          | none => .error (.NoHandler cur.path (childNames cur.children))
          | some h =>
            .resolved { path := cur.path, handler := h, boundFlags := bound, positionals := ps }

/-- Modelled from the spec: `parse(tokens)` of §4.3. -/
def parse (app : Application) (tokens : List String) : ParseOutcome :=
  finish (walk (Cursor.root app) tokens).1 (walk (Cursor.root app) tokens).2

end kingpin

open kingpin

/-! ## The process around `Command` -/

/-- The ten collaborators whose registration functions `Command` calls. -/
inductive Collaborator
  | server
  | user
  | pipeline
  | execution
  | users
  | token
  | login
  | logout
  | register
  | swagger
  deriving DecidableEq, Repr

/-- The two applications `Command` can reach: the one held by its local
variable `app`, and the default application of the kingpin package, on which
the package-level functions act. -/
inductive Target
  | app
  | commandLine
  deriving DecidableEq, Repr

/-- Modelled from the spec: what a Handler reports (§3, §4.4): success, a
reported failure with its exit code and message, or an uncaught fault. -/
inductive HandlerResult
  | success
  | failure (code : Nat) (msg : String)
  | fault
  deriving DecidableEq, Repr

/-- What `cli.go` takes from outside: the version string
(`version.Version.String()`), the registration function of each collaborator
(each receives the application and mutates it), and the behaviour of the
handlers the collaborators supply. -/
structure Env where
  version : String
  register : Collaborator → Application → Application
  handler : HandlerId → List (String × Value) → List String → HandlerResult

/-- An error returned by `app.Parse`: a parse-time error, or the failure a
handler reported. -/
inductive Failure
  | parse (e : ParseError)
  | handler (code : Nat) (msg : String)
  deriving DecidableEq, Repr

/-- Observable steps of a run, in the order they happen. -/
inductive Event
  | new (t : Target) (name description : String)
  | register (c : Collaborator) (t : Target)
  | version (t : Target) (v : String)
  | parse (t : Target) (tokens : List String)
  | handler (h : HandlerId)
  | print (text : String)
  | usage (e : ParseError)
  | message (text : String)
  | exit (code : Nat)
  | panic
  deriving DecidableEq, Repr

/-- Whether a step builds or changes a command tree. -/
def Event.mutatesTree : Event → Bool
  | .new _ _ _ => true
  | .register _ _ => true
  | .version _ _ => true
  | _ => false

/-- Whether a step is a call of `Parse`. -/
def Event.isParse : Event → Bool
  | .parse _ _ => true
  | _ => false

/-- Whether a step is the invocation of a handler. -/
def Event.isHandler : Event → Bool
  | .handler _ => true
  | _ => false

/-- Whether a step is a registration call. -/
def Event.isRegister : Event → Bool
  | .register _ _ => true
  | _ => false

/-- How far the process has got: still running (at the end of `Command`: it
returned), terminated with an exit code, or stopped by a run-time panic. -/
inductive Status
  | running
  | exited (code : Nat)
  | panicked
  deriving DecidableEq, Repr

/-- Process state before `Command` has made its application: the default
application of the kingpin package and the trace so far. -/
structure Proc where
  commandLine : Application
  trace : List Event
  status : Status

/-- Process state while `Command` runs: in addition the application its local
variable `app` points to. -/
structure Run where
  app : Application
  commandLine : Application
  trace : List Event
  status : Status

/-- State at process start: the package's default application exists and is
empty, nothing has happened. -/
def Proc.start : Proc :=
  { commandLine := Application.empty "" "", trace := [], status := .running }

/-- Record a step. -/
def Run.log (r : Run) (e : Event) : Run :=
  { r with trace := r.trace ++ [e] }

/-- Terminate the process with an exit code. -/
def Run.terminate (r : Run) (code : Nat) : Run :=
  { r with trace := r.trace ++ [.exit code], status := .exited code }

/-- Stop the process with a run-time panic. -/
def Run.runtimePanic (r : Run) : Run :=
  { r with trace := r.trace ++ [.panic], status := .panicked }

/-- Package variable `var nocontext = context.Background()` ("empty context"). -/
def nocontext : context.Context := context.Background

/-- Package variable `var application = "gitness"` (application name). -/
def application : String := "gitness"

/-- Package variable `var description = "description goes here"`. -/
def description : String := "description goes here"

/-- The call `version.Version.String()`: the version string, supplied from outside. -/
def version.Version.String (env : Env) : String := env.version

/-- The call `app := kingpin.New(application, description)`: `app` holds a fresh,
empty application. -/
def kingpin.New (name description : String) (p : Proc) : Run :=
  { app := Application.empty name description, commandLine := p.commandLine,
    trace := p.trace ++ [.new .app name description], status := p.status }

/-- A registration call `X.Register(app)` / `registerX(app)`: collaborator `c`
works on the application held by `app`. -/
def registerCall (env : Env) (c : Collaborator) (r : Run) : Run :=
  { r with app := env.register c r.app, trace := r.trace ++ [.register c .app] }

/-- The call `server.Register(app)`. -/
def server.Register (env : Env) (r : Run) : Run := registerCall env .server r

/-- The call `user.Register(app)`. -/
def user.Register (env : Env) (r : Run) : Run := registerCall env .user r

/-- The call `pipeline.Register(app)`. -/
def pipeline.Register (env : Env) (r : Run) : Run := registerCall env .pipeline r

/-- The call `execution.Register(app)`. -/
def execution.Register (env : Env) (r : Run) : Run := registerCall env .execution r

/-- The call `users.Register(app)`. -/
def users.Register (env : Env) (r : Run) : Run := registerCall env .users r

/-- The call `token.Register(app)`. -/
def token.Register (env : Env) (r : Run) : Run := registerCall env .token r

/-- The call `registerLogin(app)`. -/
def registerLogin (env : Env) (r : Run) : Run := registerCall env .login r

/-- The call `registerLogout(app)`. -/
def registerLogout (env : Env) (r : Run) : Run := registerCall env .logout r

/-- The call `registerRegister(app)`. -/
def registerRegister (env : Env) (r : Run) : Run := registerCall env .register r

/-- The call `registerSwagger(app)`. -/
def registerSwagger (env : Env) (r : Run) : Run := registerCall env .swagger r

/-- The call `kingpin.Version(v)`: a function of the kingpin package, not a
method of `app`. It is not given `app`; it acts on the default application of
the package (`kingpin.CommandLine`), on which it installs the version flag. -/
def kingpin.Version (v : String) (r : Run) : Run :=
  { r with commandLine := r.commandLine.Version v,
           trace := r.trace ++ [.version .commandLine v] }

/-- Modelled from the spec: what a terminal flag prints before the clean exit
(§4.1): the version flag prints the version string of the application being
parsed, any other terminal flag (help) a usage listing. -/
def terminalOutput (app : Application) (flag : String) : String :=
  if flag == "version" then app.version.getD "" else "usage: " ++ app.name

/-- Modelled from the spec: `dispatch` of §4.4 as far as it happens inside
`app.Parse`: the leaf's handler is invoked once with the bound flags; success
yields the selected command, a reported failure is handed back as an error,
and a fault is turned into the fatal exit code 2. -/
def dispatch (env : Env) (inv : ResolvedInvocation) (r : Run) :
    Run × Option (Except Failure String) :=
  match env.handler inv.handler inv.boundFlags inv.positionals with
  | .success => (r.log (.handler inv.handler), some (.ok (String.intercalate " " inv.path)))
  | .failure code msg => (r.log (.handler inv.handler), some (.error (.handler code msg)))
  | .fault => (((r.log (.handler inv.handler)).log (.message "fatal")).terminate 2, none)

/-- Modelled from the spec: the call `app.Parse(tokens)`: parse the tokens
against the tree of `app`. A terminal flag prints and terminates with exit
code 0; a parse-time error is returned; a resolved invocation is dispatched.
The second component is what `Parse` returns, `none` when the process was
terminated inside the call. -/
def kingpin.Application.Parse (env : Env) (tokens : List String) (r : Run) :
    Run × Option (Except Failure String) :=
  match parse r.app tokens with
  | .shortCircuit flag =>
    ((((r.log (.parse .app tokens)).log (.print (terminalOutput r.app flag))).terminate 0), none)
  | .error e => (r.log (.parse .app tokens), some (.error (.parse e)))
  | .resolved inv => dispatch env inv (r.log (.parse .app tokens))

/-- Modelled from the spec: exit code of the top level for a parse-time error
(§6: any stable non-zero code). -/
def parseErrorExitCode : Nat := 1

/-- Modelled from the spec: exit code for a failure a handler reported (§4.4):
the code the handler chose, or the default 1 when it chose none (0). -/
def failureExitCode (code : Nat) : Nat := if code = 0 then 1 else code

/-- Modelled from the spec: `kingpin.MustParse(command, err)`: without an error
the run goes on; a parse-time error is turned into a usage message and a
non-zero exit (§7); a handler's reported failure into its message and its exit
code (§4.4). Nothing happens when the process ended inside `Parse`. -/
def kingpin.MustParse (x : Run × Option (Except Failure String)) : Run :=
  match x with
  | (r, none) => r
  | (r, some (.ok _)) => r
  | (r, some (.error (.parse e))) => (r.log (.usage e)).terminate parseErrorExitCode
  | (r, some (.error (.handler code msg))) =>
    (r.log (.message msg)).terminate (failureExitCode code)

/-- The function `Command` of `cli/cli.go`, run in environment `env` with
`os.Args = osArgs`, statement by statement. The Go variable `app` is a pointer;
here `app` is the state of the run, whose field `app` is the application the
pointer refers to. The argument `os.Args[1:]` is evaluated before `Parse` is
called, and a panic there ends the run. -/
def Command (env : Env) (osArgs : List String) : Run :=
  let app := kingpin.New application description Proc.start
  let app := server.Register env app
  let app := user.Register env app
  let app := pipeline.Register env app
  let app := execution.Register env app
  let app := users.Register env app
  let app := token.Register env app
  let app := registerLogin env app
  let app := registerLogout env app
  let app := registerRegister env app
  let app := registerSwagger env app
  let app := kingpin.Version (version.Version.String env) app
  match sliceFrom osArgs 1 with
  | none => app.runtimePanic
  | some args => kingpin.MustParse (kingpin.Application.Parse env args app)

/-! ## Registration as the specification describes it -/

/-- The order in which `Command` calls the registration functions. -/
def registrationOrder : List Collaborator :=
  [.server, .user, .pipeline, .execution, .users, .token, .login, .logout, .register, .swagger]

/-- Run the registration functions of the collaborators of `order`, one after
the other, on an application. -/
def Env.registerAll (env : Env) (order : List Collaborator) (app : Application) : Application :=
  order.foldl (fun a c => env.register c a) app

/-- Modelled from the spec: "each subcommand module registers exactly one
subtree independently" (§4.2): the registration function of collaborator `c`
performs the engine's `register` for the subtree `sub c` whenever `register`
accepts it. -/
def Env.RegistersSubtrees (env : Env) (sub : Collaborator → CommandNode) : Prop :=
  ∀ c app app2, app.register (sub c) = .ok app2 → env.register c app = app2

/-- A sample subtree for each collaborator, each under its own name. -/
def sampleSubtree : Collaborator → CommandNode
  | .server => .mk "server" "starts the server"
      [{ name := "port", aliases := ["p"], kind := .int, default := some (.int 3000),
         required := false, terminal := false }] [] (some 0)
  | .user => .mk "user" "manage the current user" []
      [.mk "self" "display the user" [] [] (some 1)] none
  | .pipeline => .mk "pipeline" "manage pipelines" []
      [.mk "find" "display a pipeline" [] [] (some 2),
       .mk "list" "display pipelines" [] [] (some 3)] none
  | .execution => .mk "execution" "manage executions" []
      [.mk "find" "display an execution" [] [] (some 4)] none
  | .users => .mk "users" "manage users" []
      [.mk "list" "display users" [] [] (some 5)] none
  | .token => .mk "token" "create a token" [] [] (some 6)
  | .login => .mk "login" "login to the server" [] [] (some 7)
  | .logout => .mk "logout" "logout from the server" [] [] (some 8)
  | .register => .mk "register" "register a user"
      [{ name := "email", aliases := [], kind := .string, default := none,
         required := true, terminal := false }] [] (some 9)
  | .swagger => .mk "swagger" "generate the swagger file" [] [] (some 10)

/-- A sample environment: every collaborator registers its sample subtree, every
handler succeeds, and the version string is `1.0.0`. -/
def sampleEnv : Env :=
  { version := "1.0.0",
    register := fun c app => { app with children := insertChild app.children (sampleSubtree c) },
    handler := fun _ _ _ => .success }

/-- A sample environment whose handlers all report a failure with exit code 3. -/
def failingEnv : Env :=
  { sampleEnv with handler := fun _ _ _ => .failure 3 "failed" }

/-- State of the run when `Command` has made its twelve calls before
`os.Args[1:]` is evaluated. -/
def startup (env : Env) : Run :=
  kingpin.Version (version.Version.String env)
    (registerSwagger env (registerRegister env (registerLogout env (registerLogin env
      (token.Register env (users.Register env (execution.Register env (pipeline.Register env
        (user.Register env (server.Register env
          (kingpin.New application description Proc.start)))))))))))

/-- The steps `Command` has taken before `os.Args[1:]` is evaluated. -/
def startupTrace (env : Env) : List Event :=
  [.new .app application description,
   .register .server .app, .register .user .app, .register .pipeline .app,
   .register .execution .app, .register .users .app, .register .token .app,
   .register .login .app, .register .logout .app, .register .register .app,
   .register .swagger .app,
   .version .commandLine env.version]

/-- The tree of the scenario of §8: `server start --port <int>` and
`server stop`. -/
def scenarioTree : Application :=
  { Application.empty "scenario" "" with
    children :=
      [.mk "server" "" []
        [.mk "start" ""
           [{ name := "port", aliases := [], kind := .int, default := none,
              required := false, terminal := false }] [] (some 1),
         .mk "stop" "" [] [] (some 2)]
        none] }

/-- A tree with a leaf that requires a flag. -/
def requiredFlagTree : Application :=
  { Application.empty "required" "" with
    children :=
      [.mk "login" ""
        [{ name := "user", aliases := ["u"], kind := .string, default := none,
           required := true, terminal := false }] [] (some 1)] }

/-! ## Structure of a run -/

theorem Command_eq (env : Env) (osArgs : List String) :
    Command env osArgs =
      match sliceFrom osArgs 1 with
      | none => (startup env).runtimePanic
      | some args => kingpin.MustParse (kingpin.Application.Parse env args (startup env)) :=
  rfl

theorem startup_trace (env : Env) : (startup env).trace = startupTrace env := rfl

theorem startup_app (env : Env) :
    (startup env).app =
      env.registerAll registrationOrder (Application.empty application description) := rfl

theorem startup_status (env : Env) : (startup env).status = .running := rfl

theorem sliceFrom_one_nil : sliceFrom [] 1 = none := rfl

theorem sliceFrom_one_cons (prog : String) (args : List String) :
    sliceFrom (prog :: args) 1 = some args := by
  simp [sliceFrom]

theorem Command_nil (env : Env) : Command env [] = (startup env).runtimePanic := rfl

theorem Command_cons (env : Env) (prog : String) (args : List String) :
    Command env (prog :: args) =
      kingpin.MustParse (kingpin.Application.Parse env args (startup env)) := by
  rw [Command_eq, sliceFrom_one_cons]

/-- What `MustParse (app.Parse args)` adds to a run: the call of `Parse`
followed by steps none of which is a `Parse` or changes a tree, among them at
most one handler invocation; the application is left as it was. -/
theorem parse_then_mustParse (env : Env) (args : List String) (r : Run) :
    ∃ rest : List Event,
      (kingpin.MustParse (kingpin.Application.Parse env args r)).trace
        = r.trace ++ Event.parse .app args :: rest ∧
      (∀ e ∈ rest, e.mutatesTree = false ∧ e.isParse = false ∧ e.isRegister = false) ∧
      rest.countP Event.isHandler ≤ 1 ∧
      (kingpin.MustParse (kingpin.Application.Parse env args r)).app = r.app := by
  unfold kingpin.Application.Parse
  cases hp : parse r.app args with
  | shortCircuit flag =>
    refine ⟨[.print (terminalOutput r.app flag), .exit 0], ?_, ?_, ?_, ?_⟩ <;>
      simp [kingpin.MustParse, Run.log, Run.terminate, Event.mutatesTree, Event.isParse,
        Event.isRegister, Event.isHandler]
  | error e =>
    refine ⟨[.usage e, .exit parseErrorExitCode], ?_, ?_, ?_, ?_⟩ <;>
      simp [kingpin.MustParse, Run.log, Run.terminate, Event.mutatesTree, Event.isParse,
        Event.isRegister, Event.isHandler]
  | resolved inv =>
    simp only [dispatch]
    cases hh : env.handler inv.handler inv.boundFlags inv.positionals with
    | success =>
      refine ⟨[.handler inv.handler], ?_, ?_, ?_, ?_⟩ <;>
        simp [kingpin.MustParse, Run.log, Run.terminate, Event.mutatesTree, Event.isParse,
          Event.isRegister, Event.isHandler]
    | failure code msg =>
      refine ⟨[.handler inv.handler, .message msg, .exit (failureExitCode code)], ?_, ?_, ?_, ?_⟩ <;>
        simp [kingpin.MustParse, Run.log, Run.terminate, Event.mutatesTree, Event.isParse,
          Event.isRegister, Event.isHandler]
    | fault =>
      refine ⟨[.handler inv.handler, .message "fatal", .exit 2], ?_, ?_, ?_, ?_⟩ <;>
        simp [kingpin.MustParse, Run.log, Run.terminate, Event.mutatesTree, Event.isParse,
          Event.isRegister, Event.isHandler]

/-- Every run is the twelve startup steps followed by steps that neither call
`Parse` more than once nor change a tree. -/
theorem Command_trace (env : Env) (osArgs : List String) :
    ∃ rest : List Event,
      (Command env osArgs).trace = startupTrace env ++ rest ∧
      (∀ e ∈ rest, e.mutatesTree = false ∧ e.isRegister = false) ∧
      rest.countP Event.isParse ≤ 1 ∧
      rest.countP Event.isHandler ≤ 1 := by
  cases osArgs with
  | nil =>
    refine ⟨[.panic], ?_, ?_, ?_, ?_⟩
    · rw [Command_nil]; simp [Run.runtimePanic, startup_trace]
    · simp [Event.mutatesTree, Event.isRegister]
    · simp [Event.isParse]
    · simp [Event.isHandler]
  | cons prog args =>
    obtain ⟨rest, htrace, hrest, hcount, _⟩ := parse_then_mustParse env args (startup env)
    refine ⟨Event.parse .app args :: rest, ?_, ?_, ?_, ?_⟩
    · rw [Command_cons, htrace, startup_trace]
    · intro e he
      rcases List.mem_cons.mp he with rfl | he
      · simp [Event.mutatesTree, Event.isRegister]
      · exact ⟨(hrest e he).1, (hrest e he).2.2⟩
    · have h0 : rest.countP Event.isParse = 0 := by
        rw [List.countP_eq_zero]
        intro e he
        simp [(hrest e he).2.1]
      simp [List.countP_cons, h0, Event.isParse]
    · simpa [List.countP_cons, Event.isHandler] using hcount

theorem Command_trace_nil (env : Env) :
    (Command env []).trace = startupTrace env ++ [.panic] := rfl

theorem Command_trace_cons (env : Env) (prog : String) (args : List String) :
    ∃ rest : List Event,
      (Command env (prog :: args)).trace = startupTrace env ++ Event.parse .app args :: rest ∧
      (∀ e ∈ rest, e.mutatesTree = false ∧ e.isParse = false ∧ e.isRegister = false) ∧
      rest.countP Event.isHandler ≤ 1 := by
  obtain ⟨rest, htrace, hrest, hcount, _⟩ := parse_then_mustParse env args (startup env)
  exact ⟨rest, by rw [Command_cons, htrace, startup_trace], hrest, hcount⟩

theorem Command_app (env : Env) (osArgs : List String) :
    (Command env osArgs).app =
      env.registerAll registrationOrder (Application.empty application description) := by
  cases osArgs with
  | nil => rfl
  | cons prog args =>
    rw [Command_cons, (parse_then_mustParse env args (startup env)).choose_spec.2.2.2, startup_app]

theorem startupTrace_no_parse (env : Env) : ∀ e ∈ startupTrace env, e.isParse = false := by
  intro e he
  simp only [startupTrace, List.mem_cons, List.mem_singleton, List.not_mem_nil, or_false] at he
  rcases he with h | h | h | h | h | h | h | h | h | h | h | h <;> subst h <;> rfl

/-- In a list split in two, an element that is not in the second part stands
before any element that is not in the first part. -/
theorem index_lt_of_split {pre suf : List Event} {i j : Nat} {a b : Event}
    (ha : (pre ++ suf)[i]? = some a) (hb : (pre ++ suf)[j]? = some b)
    (hasuf : a ∉ suf) (hbpre : b ∉ pre) : i < j := by
  by_contra hij
  have hji : j ≤ i := Nat.le_of_not_lt hij
  by_cases hi : i < pre.length
  · have hj : j < pre.length := Nat.lt_of_le_of_lt hji hi
    rw [List.getElem?_append_left hj] at hb
    exact hbpre (List.getElem?_mem hb)
  · rw [List.getElem?_append_right (Nat.le_of_not_lt hi)] at ha
    exact hasuf (List.getElem?_mem ha)

/-- An element found behind the first part of a split list belongs to the
second part. -/
theorem mem_suffix_of_index {pre suf : List Event} {j : Nat} {b : Event}
    (hb : (pre ++ suf)[j]? = some b) (hj : pre.length ≤ j) : b ∈ suf := by
  rw [List.getElem?_append_right hj] at hb
  exact List.getElem?_mem hb

/-! ## The claims about the order of calls -/

/-- C3: in every run of `Command` the tree is made empty by the first step,
every registration call comes after that step and strictly before any call of
`Parse`, `Parse` is called at most once, no step after the call of `Parse`
builds or changes a tree, and the tree at the end of the run is the tree the
registrations left. -/
theorem registration_precedes_parse (env : Env) (osArgs : List String) :
    (kingpin.New application description Proc.start).app.children = [] ∧
    (kingpin.New application description Proc.start).app.flags = [] ∧
    (Command env osArgs).trace.head? = some (.new .app application description) ∧
    (∀ (i : Nat) (c : Collaborator) (t : Target),
      (Command env osArgs).trace[i]? = some (.register c t) → 0 < i) ∧
    (∀ (i j : Nat) (c : Collaborator) (t t2 : Target) (toks : List String),
      (Command env osArgs).trace[i]? = some (.register c t) →
      (Command env osArgs).trace[j]? = some (.parse t2 toks) → i < j) ∧
    (∀ (i j : Nat) (t : Target) (toks : List String) (e : Event),
      (Command env osArgs).trace[i]? = some (.parse t toks) → i < j →
      (Command env osArgs).trace[j]? = some e → e.mutatesTree = false) ∧
    (Command env osArgs).trace.countP Event.isParse ≤ 1 ∧
    (Command env osArgs).app = (startup env).app := by
  obtain ⟨rest, htrace, hrest, hparse, _⟩ := Command_trace env osArgs
  have hnoreg : ∀ c t, Event.register c t ∉ rest := fun c t h => by
    have := (hrest _ h).2
    simp [Event.isRegister] at this
  have hnoparse : ∀ t toks, Event.parse t toks ∉ startupTrace env := fun t toks h => by
    have := startupTrace_no_parse env _ h
    simp [Event.isParse] at this
  refine ⟨rfl, rfl, ?_, ?_, ?_, ?_, ?_, by rw [Command_app, startup_app]⟩
  · rw [htrace]; rfl
  · intro i c t hi
    rcases Nat.eq_zero_or_pos i with h0 | h0
    · subst h0
      rw [htrace] at hi
      simp [startupTrace] at hi
    · exact h0
  · intro i j c t t2 toks hi hj
    rw [htrace] at hi hj
    exact index_lt_of_split hi hj (hnoreg c t) (hnoparse t2 toks)
  · intro i j t toks e hi hij hj
    rw [htrace] at hi hj
    have hlen : (startupTrace env).length ≤ i := by
      by_contra hlt
      rw [List.getElem?_append_left (Nat.lt_of_not_le hlt)] at hi
      exact hnoparse t toks (List.getElem?_mem hi)
    exact (hrest e (mem_suffix_of_index hj (Nat.le_trans hlen (Nat.le_of_lt hij)))).1
  · rw [htrace, List.countP_append]
    have h0 : (startupTrace env).countP Event.isParse = 0 := by
      rw [List.countP_eq_zero]
      intro e he
      simp [startupTrace_no_parse env e he]
    omega

/-- C4: in every run of `Command` the registration calls are exactly the ten
of the code, one for each collaborator and none twice, all on the application
held by `app`; the application `Command` ends with, and the only one `Parse` is
called on, is the result of these ten registrations on the empty tree. -/
theorem each_collaborator_registered_once (env : Env) (osArgs : List String) :
    (∀ c, (Command env osArgs).trace.count (.register c .app) = 1) ∧
    (Command env osArgs).trace.filter Event.isRegister
      = registrationOrder.map (fun c => Event.register c .app) ∧
    (∀ c, c ∈ registrationOrder) ∧ registrationOrder.Nodup ∧
    (Command env osArgs).app
      = env.registerAll registrationOrder (Application.empty application description) ∧
    (Command env osArgs).app
      = env.register .swagger (env.register .register (env.register .logout
          (env.register .login (env.register .token (env.register .users
            (env.register .execution (env.register .pipeline (env.register .user
              (env.register .server (Application.empty application description)))))))))) ∧
    (∀ t toks, Event.parse t toks ∈ (Command env osArgs).trace → t = .app) := by
  obtain ⟨rest, htrace, hrest, _, _⟩ := Command_trace env osArgs
  have hfilter : rest.filter Event.isRegister = [] := by
    rw [List.filter_eq_nil_iff]
    intro e he
    simp [(hrest e he).2]
  refine ⟨?_, ?_, ?_, by decide, Command_app env osArgs, Command_app env osArgs, ?_⟩
  · intro c
    have h0 : rest.count (.register c .app) = 0 := by
      rw [List.count_eq_zero]
      intro h
      have := (hrest _ h).2
      simp [Event.isRegister] at this
    rw [htrace, List.count_append, h0]
    cases c <;> simp [startupTrace]
  · rw [htrace, List.filter_append, hfilter]
    simp [startupTrace, registrationOrder, Event.isRegister]
  · intro c
    cases c <;> simp [registrationOrder]
  · intro t toks h
    cases osArgs with
    | nil =>
      rw [Command_trace_nil] at h
      simp [startupTrace] at h
    | cons prog args =>
      obtain ⟨rest2, htrace2, hrest2, _⟩ := Command_trace_cons env prog args
      rw [htrace2] at h
      rcases List.mem_append.mp h with h | h
      · have := startupTrace_no_parse env _ h
        simp [Event.isParse] at this
      · rcases List.mem_cons.mp h with h | h
        · injection h with h1 _
        · have := (hrest2 _ h).2.1
          simp [Event.isParse] at this

/-- C5: for an argument vector of length at least one, the call of `Parse` is
given exactly the argument vector without its first element: the vector is the
program name followed by the tokens passed, token `i` is argument `i + 1`, and
no call of `Parse` in the run is given anything else. -/
theorem parse_receives_args_tail (env : Env) (osArgs : List String)
    (hlen : 1 ≤ osArgs.length) :
    Event.parse .app osArgs.tail ∈ (Command env osArgs).trace ∧
    (∀ t toks, Event.parse t toks ∈ (Command env osArgs).trace → toks = osArgs.tail) ∧
    (∃ prog, osArgs = prog :: osArgs.tail) ∧
    osArgs.tail.length + 1 = osArgs.length ∧
    (∀ i : Nat, osArgs.tail[i]? = osArgs[i + 1]?) := by
  cases osArgs with
  | nil => simp at hlen
  | cons prog args =>
    obtain ⟨rest, htrace, hrest, _⟩ := Command_trace_cons env prog args
    refine ⟨?_, ?_, ⟨prog, rfl⟩, rfl, fun i => by simp⟩
    · rw [htrace]; simp
    · intro t toks h
      rw [htrace] at h
      rcases List.mem_append.mp h with h | h
      · have := startupTrace_no_parse env _ h
        simp [Event.isParse] at this
      · rcases List.mem_cons.mp h with h | h
        · injection h with _ h2
        · have := (hrest _ h).2.1
          simp [Event.isParse] at this

/-- The run of the sample environment on `gitness pipeline list` passes exactly
`pipeline list` to `Parse`. -/
theorem parse_receives_args_tail_witness :
    1 ≤ ["gitness", "pipeline", "list"].length ∧
    Event.parse .app ["pipeline", "list"]
      ∈ (Command sampleEnv ["gitness", "pipeline", "list"]).trace :=
  ⟨by decide, (parse_receives_args_tail sampleEnv ["gitness", "pipeline", "list"] (by decide)).1⟩

/-- C10: the slice `os.Args[1:]`, as a total operation, succeeds if and only if
the argument vector has at least one element; on the empty argument vector
`Command` stops with a run-time panic after its startup steps, and neither
`Parse` nor a handler is reached. -/
theorem slice_succeeds_iff_nonempty (env : Env) (osArgs : List String) :
    ((sliceFrom osArgs 1).isSome ↔ 1 ≤ osArgs.length) ∧
    (sliceFrom osArgs 1 = none ↔ osArgs = []) ∧
    (Command env []).status = .panicked ∧
    (Command env []).trace = startupTrace env ++ [.panic] ∧
    (∀ e ∈ (Command env []).trace, e.isParse = false ∧ e.isHandler = false) := by
  refine ⟨?_, ?_, rfl, rfl, ?_⟩
  · cases osArgs <;> simp [sliceFrom]
  · cases osArgs <;> simp [sliceFrom]
  · intro e he
    rw [Command_trace_nil] at he
    simp only [startupTrace, List.cons_append, List.nil_append, List.mem_cons,
      List.mem_singleton, List.not_mem_nil, or_false] at he
    rcases he with h | h | h | h | h | h | h | h | h | h | h | h | h <;> subst h <;>
      exact ⟨rfl, rfl⟩

/-! ## The engine on the scenario of its specification -/

/-- The parser gives the outcomes of the scenario of §8, and each of the five
parse-time errors occurs. -/
theorem parse_scenario :
    parse scenarioTree ["server", "start", "--port", "8080"]
      = .resolved { path := ["server", "start"], handler := 1,
                    boundFlags := [("port", .int 8080)], positionals := [] } ∧
    parse scenarioTree ["server"] = .error (.NoHandler ["server"] ["start", "stop"]) ∧
    parse scenarioTree ["server", "bogus"]
      = .error (.UnknownCommand ["server"] ["start", "stop"]) ∧
    parse scenarioTree ["server", "start", "--port", "notanumber"]
      = .error (.FlagTypeConversionError "port") ∧
    parse scenarioTree ["server", "stop", "--force"] = .error (.UnknownFlag "force") ∧
    parse requiredFlagTree ["login"] = .error (.MissingRequiredFlag "user") ∧
    parse requiredFlagTree ["login", "-u", "admin", "now"]
      = .resolved { path := ["login"], handler := 1,
                    boundFlags := [("user", .str "admin")], positionals := ["now"] } := by
  decide

/-- A version flag installed on the application that is parsed short-circuits
the parse of `--version`, whatever commands are registered. -/
theorem version_flag_short_circuits (name description v : String)
    (children : List CommandNode) :
    parse ({ Application.empty name description with children := children }.Version v)
      ["--version"] = .shortCircuit "version" := by
  have h1 : isFlagToken "--version" = true := by decide
  have h2 : terminalFlag [versionFlag] ["--version"] = some versionFlag := by decide
  simp only [parse, walk, h1, finish, Application.Version, Application.empty, Cursor.root,
    List.nil_append, if_true, h2]
  rfl

/-! ## The context of the package -/

/-- C7, the claim as stated fails: the context of this package has no
cancellation signal (its `Done` channel is nil) and no deadline. -/
theorem nocontext_not_cancellable :
    ¬ (nocontext.hasDone = true ∨ nocontext.Deadline.isSome = true) := by
  decide

/-- C7 as amended: the context of this package is the empty background
context: whatever cancel functions are called and whatever the clock reads, it
reports no error, so it is never cancelled; it has no deadline and no
cancellation signal. -/
theorem nocontext_never_cancelled (cancelled : List Nat) (now : Nat) :
    nocontext = context.Background ∧
    nocontext.Err cancelled now = none ∧
    nocontext.Deadline = none ∧
    nocontext.hasDone = false :=
  ⟨rfl, rfl, rfl, rfl⟩

/-- A context derived with `WithCancel` is cancellable, in contrast: it has a
cancellation signal and reports `Canceled` once its cancel function is called. -/
theorem withCancel_cancellable (id now : Nat) :
    (context.WithCancel nocontext id).hasDone = true ∧
    (context.WithCancel nocontext id).Err [id] now = some .Canceled := by
  simp [context.WithCancel, context.Context.hasDone, context.Context.Err, nocontext,
    context.Background]

/-! ## The version flag -/

/-- In every run the version flag lands on the default application of the
package: that application ends as the empty application with the version flag
installed, whatever the collaborators register on `app`. -/
theorem Command_commandLine (env : Env) (osArgs : List String) :
    (Command env osArgs).commandLine = (Application.empty "" "").Version env.version := by
  cases osArgs with
  | nil => rfl
  | cons prog args =>
    rw [Command_cons]
    unfold kingpin.Application.Parse
    cases hp : parse (startup env).app args with
    | shortCircuit flag => rfl
    | error e => rfl
    | resolved inv =>
      simp only [dispatch]
      cases hh : env.handler inv.handler inv.boundFlags inv.positionals <;> rfl

/-- C1, the code at the failing input `gitness --version`: the version flag is
installed on the default application of the kingpin package, the application
held by `app` has none, so `Parse` fails on `--version`; the run prints no
version and ends with exit code 1. The same token is a terminal flag for the
application the flag was installed on. -/
theorem version_flag_on_other_application :
    (Command sampleEnv ["gitness", "--version"]).status = .exited 1 ∧
    Event.print "1.0.0" ∉ (Command sampleEnv ["gitness", "--version"]).trace ∧
    Event.exit 0 ∉ (Command sampleEnv ["gitness", "--version"]).trace ∧
    Event.version .commandLine "1.0.0" ∈ (Command sampleEnv ["gitness", "--version"]).trace ∧
    (Command sampleEnv ["gitness", "--version"]).app.version = none ∧
    (Command sampleEnv ["gitness", "--version"]).app.flags = [] ∧
    (Command sampleEnv ["gitness", "--version"]).commandLine.version = some "1.0.0" ∧
    (Command sampleEnv ["gitness", "--version"]).commandLine.flags = [versionFlag] ∧
    parse (Command sampleEnv ["gitness", "--version"]).commandLine ["--version"]
      = .shortCircuit "version" ∧
    (∃ names, parse (Command sampleEnv ["gitness", "--version"]).app ["--version"]
      = .error (.UnknownCommand [] names)) := by
  refine ⟨by decide, by decide, by decide, by decide, rfl, rfl, rfl, rfl, by decide, ?_⟩
  exact ⟨_, rfl⟩

/-! ## Parse-time errors -/

/-- What `Parse` returns is a parse-time error exactly when the parser fails
with that error. -/
theorem Parse_returns_parse_error (env : Env) (args : List String) (r : Run) (e : ParseError) :
    (kingpin.Application.Parse env args r).2 = some (.error (.parse e))
      ↔ parse r.app args = .error e := by
  unfold kingpin.Application.Parse
  cases hp : parse r.app args with
  | shortCircuit flag => simp
  | error e2 => simp
  | resolved inv =>
    simp only [dispatch]
    cases hh : env.handler inv.handler inv.boundFlags inv.positionals <;> simp

/-- The run of `Command` when the parser fails with `e` on `os.Args[1:]`. -/
theorem Command_of_parse_error (env : Env) (osArgs args : List String) (e : ParseError)
    (hargs : sliceFrom osArgs 1 = some args)
    (hp : parse (startup env).app args = .error e) :
    (Command env osArgs).trace
      = startupTrace env ++ [.parse .app args, .usage e, .exit parseErrorExitCode] ∧
    (Command env osArgs).status = .exited parseErrorExitCode ∧
    (∀ ev ∈ (Command env osArgs).trace, ev.isHandler = false) ∧
    Event.panic ∉ (Command env osArgs).trace := by
  have hrun : Command env osArgs
      = ((((startup env).log (.parse .app args)).log (.usage e)).terminate parseErrorExitCode) := by
    rw [Command_eq, hargs]
    simp only [kingpin.Application.Parse, hp, kingpin.MustParse]
  have htrace : (Command env osArgs).trace
      = startupTrace env ++ [.parse .app args, .usage e, .exit parseErrorExitCode] := by
    rw [hrun]
    simp [Run.log, Run.terminate, startup_trace]
  refine ⟨htrace, by rw [hrun]; rfl, ?_, ?_⟩
  · intro ev hev
    rw [htrace] at hev
    simp only [startupTrace, List.cons_append, List.nil_append, List.mem_cons,
      List.mem_singleton, List.not_mem_nil, or_false] at hev
    rcases hev with h | h | h | h | h | h | h | h | h | h | h | h | h | h | h <;> subst h <;> rfl
  · rw [htrace]
    simp [startupTrace]

/-- C2: whenever `app.Parse(os.Args[1:])` returns a parse-time error (any of
`UnknownCommand`, `NoHandler`, `UnknownFlag`, `MissingRequiredFlag`,
`FlagTypeConversionError`), the run of `Command` consists of the startup steps,
the call of `Parse`, a usage message for that error and the exit with the
non-zero code for parse errors: no handler runs, there is no panic, and
`Command` does not return as after a successful parse. -/
theorem parse_error_becomes_usage_exit (env : Env) (osArgs args : List String)
    (e : ParseError) (hargs : sliceFrom osArgs 1 = some args)
    (herr : (kingpin.Application.Parse env args (startup env)).2 = some (.error (.parse e))) :
    (Command env osArgs).trace
      = startupTrace env ++ [.parse .app args, .usage e, .exit parseErrorExitCode] ∧
    (Command env osArgs).status = .exited parseErrorExitCode ∧
    parseErrorExitCode ≠ 0 ∧
    (∀ ev ∈ (Command env osArgs).trace, ev.isHandler = false) ∧
    Event.panic ∉ (Command env osArgs).trace ∧
    (Command env osArgs).status ≠ .panicked ∧
    (Command env osArgs).status ≠ .running := by
  obtain ⟨htrace, hstatus, hhandler, hpanic⟩ := Command_of_parse_error env osArgs args e hargs
    ((Parse_returns_parse_error env args (startup env) e).mp herr)
  refine ⟨htrace, hstatus, by decide, hhandler, hpanic, ?_, ?_⟩
  · rw [hstatus]; simp
  · rw [hstatus]; simp

/-- Runs of the sample environment for each of the five parse-time errors:
`Parse` returns the error and the run ends with exit code 1. -/
theorem parse_error_becomes_usage_exit_witness :
    sliceFrom ["gitness", "bogus"] 1 = some ["bogus"] ∧
    (Command sampleEnv ["gitness", "bogus"]).status = .exited 1 ∧
    (Command sampleEnv ["gitness", "users"]).trace.getLast? = some (.exit 1) ∧
    (Command sampleEnv ["gitness", "login", "--bogus"]).status = .exited 1 ∧
    (Command sampleEnv ["gitness", "register"]).status = .exited 1 ∧
    (Command sampleEnv ["gitness", "server", "--port", "abc"]).status = .exited 1 :=
  ⟨rfl,
   (parse_error_becomes_usage_exit sampleEnv ["gitness", "bogus"] ["bogus"]
      (.UnknownCommand []
        ["server", "user", "pipeline", "execution", "users", "token", "login", "logout",
         "register", "swagger"])
      rfl rfl).2.1,
   by rw [(parse_error_becomes_usage_exit sampleEnv ["gitness", "users"] ["users"]
      (.NoHandler ["users"] ["list"]) rfl rfl).1]; rfl,
   (parse_error_becomes_usage_exit sampleEnv ["gitness", "login", "--bogus"]
      ["login", "--bogus"] (.UnknownFlag "bogus") rfl rfl).2.1,
   (parse_error_becomes_usage_exit sampleEnv ["gitness", "register"] ["register"]
      (.MissingRequiredFlag "email") rfl rfl).2.1,
   (parse_error_becomes_usage_exit sampleEnv ["gitness", "server", "--port", "abc"]
      ["server", "--port", "abc"] (.FlagTypeConversionError "port") rfl rfl).2.1⟩

/-! ## One parse, one handler -/

/-- C9, the claim as stated fails: in the run on the empty argument vector
`Parse` is not called exactly once (it is not called at all). -/
theorem parse_not_called_on_empty_args :
    ¬ ((Command sampleEnv []).trace.countP Event.isParse = 1) := by
  decide

/-- C9 as amended: in every run of `Command`, `Parse` is called at most once
and at most one handler is invoked; when the argument vector is not empty
`Parse` is called exactly once, and when it is empty neither `Parse` nor a
handler is reached; for a resolved invocation the handler invocations of the
run are exactly one, that of the resolved handler, whatever the handler
reports; and no handler is invoked when the parse does not resolve. -/
theorem parse_and_handler_at_most_once (env : Env) (osArgs : List String) :
    (Command env osArgs).trace.countP Event.isParse ≤ 1 ∧
    (Command env osArgs).trace.countP Event.isHandler ≤ 1 ∧
    (osArgs ≠ [] → (Command env osArgs).trace.countP Event.isParse = 1) ∧
    (osArgs = [] → (Command env osArgs).trace.countP Event.isParse = 0 ∧
      (Command env osArgs).trace.countP Event.isHandler = 0) ∧
    (∀ args inv, sliceFrom osArgs 1 = some args →
      parse (startup env).app args = .resolved inv →
      (Command env osArgs).trace.filter Event.isHandler = [.handler inv.handler]) ∧
    (∀ args, sliceFrom osArgs 1 = some args →
      (∀ inv, parse (startup env).app args ≠ .resolved inv) →
      (Command env osArgs).trace.filter Event.isHandler = []) := by
  have hstartP : (startupTrace env).countP Event.isParse = 0 := by
    simp [startupTrace, Event.isParse]
  have hstartH : (startupTrace env).countP Event.isHandler = 0 := by
    simp [startupTrace, Event.isHandler]
  have hstartF : (startupTrace env).filter Event.isHandler = [] := by
    simp [startupTrace, Event.isHandler]
  cases osArgs with
  | nil =>
    have hP : (Command env []).trace.countP Event.isParse = 0 := by
      rw [Command_trace_nil, List.countP_append, hstartP]; simp [Event.isParse]
    have hH : (Command env []).trace.countP Event.isHandler = 0 := by
      rw [Command_trace_nil, List.countP_append, hstartH]; simp [Event.isHandler]
    refine ⟨by omega, by omega, fun h => absurd rfl h, fun _ => ⟨hP, hH⟩, ?_, ?_⟩
    · intro args inv hargs
      simp [sliceFrom] at hargs
    · intro args hargs
      simp [sliceFrom] at hargs
  | cons prog args0 =>
    obtain ⟨rest, htrace, hrest, hcount⟩ := Command_trace_cons env prog args0
    have hrestP : rest.countP Event.isParse = 0 := by
      rw [List.countP_eq_zero]
      intro e he
      simp [(hrest e he).2.1]
    have hP : (Command env (prog :: args0)).trace.countP Event.isParse = 1 := by
      rw [htrace, List.countP_append, hstartP, List.countP_cons, hrestP]
      simp [Event.isParse]
    have hH : (Command env (prog :: args0)).trace.countP Event.isHandler ≤ 1 := by
      rw [htrace, List.countP_append, hstartH, List.countP_cons]
      simpa [Event.isHandler] using hcount
    refine ⟨by omega, hH, fun _ => hP, fun h => by simp at h, ?_, ?_⟩
    · intro args inv hargs hp
      rw [sliceFrom_one_cons] at hargs
      injection hargs with hargs
      subst hargs
      rw [Command_cons]
      simp only [kingpin.Application.Parse, hp, dispatch]
      cases hh : env.handler inv.handler inv.boundFlags inv.positionals <;>
        simp [kingpin.MustParse, Run.log, Run.terminate, startup_trace, hstartF, Event.isHandler]
    · intro args hargs hp
      rw [sliceFrom_one_cons] at hargs
      injection hargs with hargs
      subst hargs
      rw [Command_cons]
      unfold kingpin.Application.Parse
      cases hq : parse (startup env).app args0 with
      | resolved inv => exact absurd hq (hp inv)
      | shortCircuit flag =>
        simp [kingpin.MustParse, Run.log, Run.terminate, startup_trace, hstartF, Event.isHandler]
      | error e =>
        simp [kingpin.MustParse, Run.log, Run.terminate, startup_trace, hstartF, Event.isHandler]

/-- Runs of the sample environments: `gitness pipeline list` invokes handler 3
once, also when the handler reports a failure, and then the run ends with the
handler's exit code. -/
theorem parse_and_handler_at_most_once_witness :
    (Command sampleEnv ["gitness", "pipeline", "list"]).trace.countP Event.isParse = 1 ∧
    (Command failingEnv ["gitness", "pipeline", "list"]).trace.filter Event.isHandler
      = [.handler 3] ∧
    (Command failingEnv ["gitness", "pipeline", "list"]).status = .exited 3 :=
  ⟨(parse_and_handler_at_most_once sampleEnv ["gitness", "pipeline", "list"]).2.2.1 (by simp),
   (parse_and_handler_at_most_once failingEnv ["gitness", "pipeline", "list"]).2.2.2.2.1
      ["pipeline", "list"]
      { path := ["pipeline", "list"], handler := 3, boundFlags := [], positionals := [] }
      rfl rfl,
   rfl⟩

/-! ## Registration of subtrees -/

theorem findChild_eq_none_of_not_mem {cs : List CommandNode} {n : String}
    (h : n ∉ childNames cs) : findChild cs n = none := by
  unfold findChild
  rw [List.find?_eq_none]
  intro c hc hname
  apply h
  simp only [childNames, List.mem_map]
  exact ⟨c, hc, by simpa using hname⟩

theorem insertChild_of_not_mem {cs : List CommandNode} {node : CommandNode}
    (h : node.name ∉ childNames cs) : insertChild cs node = cs ++ [node] := by
  induction cs with
  | nil => rfl
  | cons c cs ih =>
    simp only [childNames, List.map_cons, List.mem_cons, not_or] at h
    have hc : c.name ≠ node.name := fun hEq => h.1 hEq.symm
    have hcs : node.name ∉ childNames cs := h.2
    simp [insertChild, hc, ih hcs]

/-- The engine's `register` accepts a subtree whose name is not yet at the root
and adds it behind the nodes already there. -/
theorem register_of_not_mem (app : Application) (node : CommandNode)
    (h : node.name ∉ childNames app.children) :
    app.register node = .ok { app with children := app.children ++ [node] } := by
  unfold Application.register
  rw [findChild_eq_none_of_not_mem h, insertChild_of_not_mem h]

/-- Collaborators that register their subtrees under pairwise different names
leave a tree whose top-level nodes are these subtrees, in the order of the
calls, behind the nodes that were there; nothing else of the tree changes. -/
theorem registerAll_of_fresh (env : Env) (sub : Collaborator → CommandNode)
    (hsub : env.RegistersSubtrees sub)
    (hinj : Function.Injective (fun c => (sub c).name)) :
    ∀ (order : List Collaborator) (app : Application), order.Nodup →
      (∀ c ∈ order, (sub c).name ∉ childNames app.children) →
      env.registerAll order app = { app with children := app.children ++ order.map sub } := by
  intro order
  induction order with
  | nil =>
    intro app _ _
    simp [Env.registerAll]
  | cons c cs ih =>
    intro app hnd hfresh
    have hc : env.register c app = { app with children := app.children ++ [sub c] } :=
      hsub c app _ (register_of_not_mem app (sub c) (hfresh c (List.mem_cons_self c cs)))
    have hnd2 : c ∉ cs ∧ cs.Nodup := List.nodup_cons.mp hnd
    have hstep : env.registerAll (c :: cs) app = env.registerAll cs (env.register c app) := rfl
    rw [hstep, hc, ih _ hnd2.2]
    · simp
    · intro c2 hc2
      simp only [childNames, List.map_append, List.map_cons, List.map_nil, List.mem_append,
        List.mem_singleton, not_or]
      refine ⟨hfresh c2 (List.mem_cons_of_mem c hc2), ?_⟩
      intro hEq
      have : c2 = c := hinj hEq
      exact hnd2.1 (this ▸ hc2)

/-- The tree built from the empty tree by such collaborators. -/
theorem registerAll_empty (env : Env) (sub : Collaborator → CommandNode)
    (hsub : env.RegistersSubtrees sub)
    (hinj : Function.Injective (fun c => (sub c).name))
    (order : List Collaborator) (hnd : order.Nodup) (name description : String) :
    env.registerAll order (Application.empty name description)
      = { Application.empty name description with children := order.map sub } := by
  rw [registerAll_of_fresh env sub hsub hinj order _ hnd]
  · simp [Application.empty]
  · intro c _
    simp [Application.empty, childNames]

theorem findChild_eq_some_iff {cs : List CommandNode} (hnd : (childNames cs).Nodup)
    {n : String} {c : CommandNode} :
    findChild cs n = some c ↔ c ∈ cs ∧ c.name = n := by
  induction cs with
  | nil => simp [findChild]
  | cons a cs ih =>
    simp only [childNames, List.map_cons, List.nodup_cons] at hnd
    have ih2 := ih hnd.2
    by_cases ha : a.name = n
    · have hfind : findChild (a :: cs) n = some a := by simp [findChild, ha]
      rw [hfind]
      constructor
      · intro h
        injection h with h
        subst h
        exact ⟨List.mem_cons_self _ _, ha⟩
      · rintro ⟨hmem, hname⟩
        rcases List.mem_cons.mp hmem with h | h
        · rw [h]
        · exfalso
          apply hnd.1
          simp only [List.mem_map]
          exact ⟨c, h, by rw [hname, ha]⟩
    · have hfind : findChild (a :: cs) n = findChild cs n := by simp [findChild, ha]
      rw [hfind, ih2]
      constructor
      · rintro ⟨hmem, hname⟩
        exact ⟨List.mem_cons_of_mem _ hmem, hname⟩
      · rintro ⟨hmem, hname⟩
        rcases List.mem_cons.mp hmem with h | h
        · exact absurd (h ▸ hname) ha
        · exact ⟨h, hname⟩

/-- Looking a name up does not depend on the order of the nodes when their
names are pairwise different. -/
theorem findChild_perm {l1 l2 : List CommandNode} (hp : l1.Perm l2)
    (hnd : (childNames l1).Nodup) (n : String) : findChild l1 n = findChild l2 n := by
  have hnd2 : (childNames l2).Nodup := (hp.map CommandNode.name).nodup hnd
  cases h1 : findChild l1 n with
  | some c =>
    have hc := (findChild_eq_some_iff hnd).mp h1
    exact ((findChild_eq_some_iff hnd2).mpr ⟨hp.mem_iff.mp hc.1, hc.2⟩).symm
  | none =>
    cases h2 : findChild l2 n with
    | none => rfl
    | some c =>
      have hc := (findChild_eq_some_iff hnd2).mp h2
      have := (findChild_eq_some_iff hnd).mpr ⟨hp.mem_iff.mpr hc.1, hc.2⟩
      rw [h1] at this
      exact absurd this (by simp)

theorem finish_root_congr (a1 a2 : Application) (hflags : a1.flags = a2.flags)
    (toks : List String) :
    finish (Cursor.root a1) toks = finish (Cursor.root a2) toks ∨
    ∃ l1 l2, finish (Cursor.root a1) toks = .error (.UnknownCommand [] l1) ∧
      finish (Cursor.root a2) toks = .error (.UnknownCommand [] l2) := by
  unfold finish
  simp only [Cursor.root, hflags]
  cases terminalFlag a2.flags toks with
  | some f => exact Or.inl rfl
  | none => exact Or.inr ⟨_, _, rfl, rfl⟩

/-- Two trees with the same root flags in which every name leads to the same
top-level node are parsed alike: the outcomes are equal, or both are the
`UnknownCommand` of the root (whose listings may differ in order). -/
theorem parse_congr (a1 a2 : Application) (hflags : a1.flags = a2.flags)
    (hfind : ∀ n, findChild a1.children n = findChild a2.children n)
    (tokens : List String) :
    parse a1 tokens = parse a2 tokens ∨
    ∃ l1 l2, parse a1 tokens = .error (.UnknownCommand [] l1) ∧
      parse a2 tokens = .error (.UnknownCommand [] l2) := by
  unfold parse
  cases tokens with
  | nil => exact finish_root_congr a1 a2 hflags []
  | cons t rest =>
    by_cases ht : isFlagToken t = true
    · have h1 : walk (Cursor.root a1) (t :: rest) = (Cursor.root a1, t :: rest) := by
        simp [walk, ht]
      have h2 : walk (Cursor.root a2) (t :: rest) = (Cursor.root a2, t :: rest) := by
        simp [walk, ht]
      rw [h1, h2]
      exact finish_root_congr a1 a2 hflags (t :: rest)
    · cases hc : findChild a2.children t with
      | none =>
        have h1 : walk (Cursor.root a1) (t :: rest) = (Cursor.root a1, t :: rest) := by
          simp [walk, ht, Cursor.root, hfind, hc]
        have h2 : walk (Cursor.root a2) (t :: rest) = (Cursor.root a2, t :: rest) := by
          simp [walk, ht, Cursor.root, hc]
        rw [h1, h2]
        exact finish_root_congr a1 a2 hflags (t :: rest)
      | some c =>
        have h1 : walk (Cursor.root a1) (t :: rest)
            = walk ((Cursor.root a2).descend c) rest := by
          simp [walk, ht, Cursor.root, hfind, hc, Cursor.descend, hflags]
        have h2 : walk (Cursor.root a2) (t :: rest)
            = walk ((Cursor.root a2).descend c) rest := by
          simp [walk, ht, Cursor.root, hc, Cursor.descend]
        rw [h1, h2]
        exact Or.inl rfl

/-! ## The sample environment -/

theorem sampleEnv_registersSubtrees : sampleEnv.RegistersSubtrees sampleSubtree := by
  intro c app app2 h
  unfold Application.register at h
  split at h
  · split at h
    · cases h
    · cases h
      rfl
  · cases h
    rfl

theorem sampleSubtree_injective : Function.Injective (fun c => (sampleSubtree c).name) := by
  intro a b h
  cases a <;> cases b <;> first | rfl | (simp [sampleSubtree, CommandNode.name] at h)

/-! ## The order of the registrations -/

/-- C8: when every collaborator registers its subtree and the ten subtrees have
pairwise different names, the tree built by the ten registrations in any order
resolves every token sequence as the tree built by `Command` does: to the same
invocation (path, handler, bound flags, positionals), to the same short
circuit, and it fails on the same token sequences. -/
theorem registration_order_irrelevant (env : Env) (sub : Collaborator → CommandNode)
    (hsub : env.RegistersSubtrees sub)
    (hinj : Function.Injective (fun c => (sub c).name))
    (order : List Collaborator) (hperm : order.Perm registrationOrder)
    (osArgs tokens : List String) :
    (∀ inv, parse (env.registerAll order (Application.empty application description)) tokens
        = .resolved inv ↔ parse (Command env osArgs).app tokens = .resolved inv) ∧
    (∀ flag, parse (env.registerAll order (Application.empty application description)) tokens
        = .shortCircuit flag ↔ parse (Command env osArgs).app tokens = .shortCircuit flag) ∧
    ((∃ e, parse (env.registerAll order (Application.empty application description)) tokens
        = .error e) ↔ ∃ e, parse (Command env osArgs).app tokens = .error e) := by
  have hnd0 : registrationOrder.Nodup := by decide
  have hnd : order.Nodup := hperm.symm.nodup hnd0
  have hnames : (childNames (order.map sub)).Nodup := by
    simp only [childNames, List.map_map]
    exact hnd.map hinj
  have hfind : ∀ n, findChild (order.map sub) n = findChild (registrationOrder.map sub) n :=
    fun n => findChild_perm (hperm.map sub) hnames n
  rw [Command_app, registerAll_empty env sub hsub hinj order hnd,
    registerAll_empty env sub hsub hinj registrationOrder hnd0]
  rcases parse_congr
      { Application.empty application description with children := order.map sub }
      { Application.empty application description with children := registrationOrder.map sub }
      rfl hfind tokens with h | ⟨l1, l2, h1, h2⟩
  · rw [h]
    exact ⟨fun _ => Iff.rfl, fun _ => Iff.rfl, Iff.rfl⟩
  · rw [h1, h2]
    refine ⟨fun inv => ?_, fun flag => ?_, ?_⟩
    · constructor <;> intro h <;> cases h
    · constructor <;> intro h <;> cases h
    · exact ⟨fun _ => ⟨_, rfl⟩, fun _ => ⟨_, rfl⟩⟩

/-- In the sample environment the registrations made in reverse order resolve
`pipeline list` to handler 3, as the tree of `Command` does. -/
theorem registration_order_irrelevant_witness :
    sampleEnv.RegistersSubtrees sampleSubtree ∧
    Function.Injective (fun c => (sampleSubtree c).name) ∧
    registrationOrder.reverse.Perm registrationOrder ∧
    (parse (sampleEnv.registerAll registrationOrder.reverse
        (Application.empty application description)) ["pipeline", "list"]
      = .resolved { path := ["pipeline", "list"], handler := 3, boundFlags := [],
                    positionals := [] } ↔
     parse (Command sampleEnv ["gitness"]).app ["pipeline", "list"]
      = .resolved { path := ["pipeline", "list"], handler := 3, boundFlags := [],
                    positionals := [] }) :=
  ⟨sampleEnv_registersSubtrees, sampleSubtree_injective, List.reverse_perm _,
   (registration_order_irrelevant sampleEnv sampleSubtree sampleEnv_registersSubtrees
      sampleSubtree_injective registrationOrder.reverse (List.reverse_perm _)
      ["gitness"] ["pipeline", "list"]).1 _⟩

/-! ## No command given -/

theorem terminalFlag_nil (tokens : List String) : terminalFlag [] tokens = none := by
  unfold terminalFlag
  rw [List.findSome?_eq_none_iff]
  intro t _
  split <;> simp [lookupFlag]

/-- A tree without root flags fails with the `UnknownCommand` of the root on no
tokens and on a first token that names no top-level node. -/
theorem parse_unknown_at_root (app : Application) (hflags : app.flags = [])
    (tokens : List String)
    (hfirst : tokens = [] ∨ ∃ t rest, tokens = t :: rest ∧ t ∉ childNames app.children) :
    parse app tokens = .error (.UnknownCommand [] (childNames app.children)) := by
  have hfinish : ∀ toks, finish (Cursor.root app) toks
      = .error (.UnknownCommand [] (childNames app.children)) := by
    intro toks
    simp [finish, Cursor.root, hflags, terminalFlag_nil]
  unfold parse
  rcases hfirst with h | ⟨t, rest, h, ht⟩
  · subst h
    exact hfinish []
  · subst h
    have hwalk : walk (Cursor.root app) (t :: rest) = (Cursor.root app, t :: rest) := by
      by_cases hflag : isFlagToken t = true
      · simp [walk, hflag]
      · simp [walk, hflag, Cursor.root, findChild_eq_none_of_not_mem ht]
    rw [hwalk]
    exact hfinish _

/-- C6: when every collaborator registers its subtree, the ten subtrees having
pairwise different names, and the process is started with a program name and
either no further argument or a first argument that is not the name of one of
the ten registered top-level commands, then the parse fails with
`UnknownCommand` listing the ten registered names, and the run of `Command` is
the startup steps, the call of `Parse`, the usage message and the exit with the
non-zero code for parse errors; no handler is invoked. -/
theorem unknown_command_at_root (env : Env) (sub : Collaborator → CommandNode)
    (hsub : env.RegistersSubtrees sub)
    (hinj : Function.Injective (fun c => (sub c).name))
    (osArgs : List String) (hlen : 1 ≤ osArgs.length)
    (hfirst : osArgs.tail = [] ∨
      ∃ t rest, osArgs.tail = t :: rest ∧ t ∉ registrationOrder.map (fun c => (sub c).name)) :
    parse (Command env osArgs).app osArgs.tail
      = .error (.UnknownCommand [] (registrationOrder.map (fun c => (sub c).name))) ∧
    (Command env osArgs).trace
      = startupTrace env ++
          [.parse .app osArgs.tail,
           .usage (.UnknownCommand [] (registrationOrder.map (fun c => (sub c).name))),
           .exit parseErrorExitCode] ∧
    (Command env osArgs).status = .exited parseErrorExitCode ∧
    parseErrorExitCode ≠ 0 ∧
    (∀ ev ∈ (Command env osArgs).trace, ev.isHandler = false) := by
  have happ : (startup env).app
      = { Application.empty application description with
          children := registrationOrder.map sub } := by
    rw [startup_app, registerAll_empty env sub hsub hinj registrationOrder (by decide)]
  have hnames : childNames (registrationOrder.map sub)
      = registrationOrder.map (fun c => (sub c).name) := by
    simp [childNames, List.map_map, Function.comp_def]
  have hp : parse (startup env).app osArgs.tail
      = .error (.UnknownCommand [] (registrationOrder.map (fun c => (sub c).name))) := by
    rw [happ, ← hnames]
    apply parse_unknown_at_root _ rfl
    rw [hnames]
    exact hfirst
  have hargs : sliceFrom osArgs 1 = some osArgs.tail := by
    cases osArgs with
    | nil => simp at hlen
    | cons prog args => exact sliceFrom_one_cons prog args
  obtain ⟨htrace, hstatus, hhandler, _⟩ :=
    Command_of_parse_error env osArgs osArgs.tail _ hargs hp
  refine ⟨?_, htrace, hstatus, by decide, hhandler⟩
  rw [Command_app, ← startup_app]
  exact hp

/-- Runs of the sample environment without a command: `gitness` alone ends with
exit code 1 after the `UnknownCommand` usage message. -/
theorem unknown_command_at_root_witness :
    sampleEnv.RegistersSubtrees sampleSubtree ∧
    Function.Injective (fun c => (sampleSubtree c).name) ∧
    1 ≤ ["gitness"].length ∧
    (Command sampleEnv ["gitness"]).status = .exited parseErrorExitCode ∧
    parse (Command sampleEnv ["gitness"]).app []
      = .error (.UnknownCommand []
          ["server", "user", "pipeline", "execution", "users", "token", "login", "logout",
           "register", "swagger"]) :=
  ⟨sampleEnv_registersSubtrees, sampleSubtree_injective, by decide,
   (unknown_command_at_root sampleEnv sampleSubtree sampleEnv_registersSubtrees
      sampleSubtree_injective ["gitness"] (by decide) (Or.inl rfl)).2.2.1,
   (unknown_command_at_root sampleEnv sampleSubtree sampleEnv_registersSubtrees
      sampleSubtree_injective ["gitness"] (by decide) (Or.inl rfl)).1⟩

/-! ## The version token on the tree of `Command` -/

/-- A tree without root flags fails at the root on a first token that is a flag
token. -/
theorem parse_flag_token_at_root (app : Application) (hflags : app.flags = [])
    (t : String) (rest : List String) (ht : isFlagToken t = true) :
    parse app (t :: rest) = .error (.UnknownCommand [] (childNames app.children)) := by
  unfold parse
  have hwalk : walk (Cursor.root app) (t :: rest) = (Cursor.root app, t :: rest) := by
    simp [walk, ht]
  rw [hwalk]
  simp [finish, Cursor.root, hflags, terminalFlag_nil]

/-- Whatever subtrees the collaborators register, `--version` as the only
argument is rejected by the tree of `Command`: the run ends with the exit code
for parse errors and prints nothing. -/
theorem version_token_rejected (env : Env) (sub : Collaborator → CommandNode)
    (hsub : env.RegistersSubtrees sub)
    (hinj : Function.Injective (fun c => (sub c).name)) (prog : String) :
    (Command env [prog, "--version"]).status = .exited parseErrorExitCode ∧
    ∀ text, Event.print text ∉ (Command env [prog, "--version"]).trace := by
  have happ : (startup env).app
      = { Application.empty application description with
          children := registrationOrder.map sub } := by
    rw [startup_app, registerAll_empty env sub hsub hinj registrationOrder (by decide)]
  have hp := parse_flag_token_at_root (startup env).app (by rw [happ]; rfl) "--version" []
    (by decide)
  obtain ⟨htrace, hstatus, _, _⟩ :=
    Command_of_parse_error env [prog, "--version"] ["--version"] _ rfl hp
  refine ⟨hstatus, fun text h => ?_⟩
  rw [htrace] at h
  simp [startupTrace] at h

end Gitness
